import Mathlib

/-!
Verification of the chunking engine of `mcp-pinecone`
(`src/mcp_pinecone/chunking.py`), shallowly embedded in Lean 4.

Text is modelled as `List Char`.  The tokenizer (tiktoken `cl100k_base`
in the source) is an external injected capability per the spec (§2, §9);
it is modelled as an abstract `Tokenizer` record with `encode`/`decode`,
and `countTokens` is the length of the encoding, exactly as
`SmartChunker.count_tokens` computes `len(self.tokenizer.encode(text))`.
`charTok` below is a concrete test double (one token per character) used
for concrete evaluations.
-/

namespace McpPinecone

abbrev Text := List Char

/-- Injected tokenization capability (spec §2: Token Counter; source wraps
`tiktoken.get_encoding(...)`). -/
structure Tokenizer where
  encode : Text → List Nat
  decode : List Nat → Text

/-- `SmartChunker.count_tokens` (chunking.py lines 111-115):
`len(self.tokenizer.encode(text))`. -/
def countTokens (tok : Tokenizer) (s : Text) : Nat :=
  (tok.encode s).length

/-- Concrete test-double tokenizer: one token per character. -/
def charTok : Tokenizer where
  encode s := s.map Char.toNat
  decode l := l.map Char.ofNat

/-- The whitespace predicate of Python's `str.isspace`, which is also
the set of characters a no-argument `str.strip()` removes (CPython's
`Py_UNICODE_ISSPACE`): U+0009-U+000D (tab, newline, vertical tab, form
feed, carriage return), U+001C-U+001F, U+0020 (space), U+0085 (next
line), U+00A0 (no-break space), U+1680, U+2000-U+200A, U+2028, U+2029,
U+202F, U+205F, U+3000. -/
def pyIsSpace (c : Char) : Bool :=
  let n := c.toNat
  (0x09 ≤ n && n ≤ 0x0d) || (0x1c ≤ n && n ≤ 0x1f) || n == 0x20
    || n == 0x85 || n == 0xa0 || n == 0x1680
    || (0x2000 ≤ n && n ≤ 0x200a) || n == 0x2028 || n == 0x2029
    || n == 0x202f || n == 0x205f || n == 0x3000

/-- Python `str.strip()` with no argument: drop `pyIsSpace` characters
(the full `Py_UNICODE_ISSPACE` set) from both ends. -/
def pyStrip (l : Text) : Text :=
  ((l.dropWhile pyIsSpace).reverse.dropWhile pyIsSpace).reverse

/-- `preMatch p l` holds iff `p` is a prefix of `l` (helper for modelling
Python `str.split`). -/
def preMatch : List Char → List Char → Bool
  | [], _ => true
  | _ :: _, [] => false
  | a :: ps, b :: ls => if a = b then preMatch ps ls else false

/-- Worker for Python `str.split(sep)` with non-empty separator `s :: ss`:
scan left to right, cutting at each leftmost non-overlapping occurrence
of the separator.  `fuel` bounds the recursion; each step consumes at
least one character, so `fuel = text.length` is exact (the `fuel = 0`
case is then only reached with `text = []`). -/
def pySplitGo (s : Char) (ss : List Char) : Nat → List Char → List Char → List (List Char)
  | 0, text, acc => [acc ++ text]
  | fuel + 1, text, acc =>
    if preMatch (s :: ss) text then
      acc :: pySplitGo s ss fuel (text.drop (ss.length + 1)) []
    else
      match text with
      | [] => [acc]
      | c :: rest => pySplitGo s ss fuel rest (acc ++ [c])

/-- Python `text.split(sep)` for a non-empty separator.  (For `sep = ""`
Python raises `ValueError`; the caller `_split_with_overlap` is modelled
to raise there, so this clause is never relied upon.) -/
def pySplit (sep text : Text) : List Text :=
  match sep with
  | [] => [text]
  | s :: ss => pySplitGo s ss text.length text []

/-- Metadata values (strings and integers suffice for the reserved keys;
caller-supplied values are drawn from the same type). -/
inductive MetaVal where
  | s : String → MetaVal
  | n : Nat → MetaVal
deriving DecidableEq, Repr

/-- A Python `dict` built by listing key/value pairs in insertion order
(later entries overwrite earlier ones, as in `{**a, **b}`). -/
abbrev Metadata := List (String × MetaVal)

/-- Lookup in a `Metadata` list with Python-dict semantics: the LAST
binding of a key wins (later `**spread` entries overwrite earlier ones). -/
def dictGet (m : Metadata) (k : String) : Option MetaVal :=
  match m with
  | [] => none
  | (k', v) :: rest =>
    match dictGet rest k with
    | some v' => some v'
    | none => if k' = k then some v else none

/-- `Chunk` (chunking.py lines 21-30). -/
structure Chunk where
  id : String
  content : Text
  metadata : Metadata
deriving DecidableEq, Repr

/-- `ChunkingConfig` (chunking.py lines 33-79), after validation. -/
structure ChunkingConfig where
  target_tokens : Nat
  max_tokens : Nat
  overlap_tokens : Nat
  separators : List Text
deriving Repr

/-- Default separator cascade (chunking.py lines 56-68). -/
def defaultSeparators : List Text :=
  ["\n\n".data, "\n".data, ". ".data, "? ".data, "! ".data, ", ".data, " ".data, "".data]

/-- Configuration construction failure (`ConfigurationError` in the spec's
taxonomy §7; pydantic `ValidationError` in the source). -/
inductive ConfigError where
  | fieldConstraint
  | overlapNotLessThanTarget
  | maxLessThanTarget
deriving DecidableEq, Repr

/-- Constructing a `ChunkingConfig` (chunking.py lines 36-79): pydantic
field constraints (`target_tokens > 0`, `max_tokens > 0`,
`overlap_tokens ≥ 0`) are checked first; then the `model_validator`
`validate_tokens` (lines 70-79) rejects `overlap_tokens ≥ target_tokens`
and `max_tokens < target_tokens`. -/
def mkChunkingConfig (target maxT overlap : Int) (seps : List Text) :
    Except ConfigError ChunkingConfig :=
  if target ≤ 0 then .error .fieldConstraint
  else if maxT ≤ 0 then .error .fieldConstraint
  else if overlap < 0 then .error .fieldConstraint
  else if target ≤ overlap then .error .overlapNotLessThanTarget
  else if maxT < target then .error .maxLessThanTarget
  else .ok ⟨target.toNat, maxT.toNat, overlap.toNat, seps⟩

/-- The reserved part of a chunk's metadata (chunking.py lines 128-134). -/
def reservedMeta (document_id : String) (chunk_number total_chunks token_count char_count : Nat) :
    Metadata :=
  [("document_id", MetaVal.s document_id),
   ("chunk_number", MetaVal.n chunk_number),
   ("total_chunks", MetaVal.n total_chunks),
   ("token_count", MetaVal.n token_count),
   ("char_count", MetaVal.n char_count),
   ("chunk_type", MetaVal.s "smart")]

/-- `SmartChunker.create_chunk` (chunking.py lines 117-142).  Note:
`token_count`/`char_count` are computed on the UNtrimmed `content`
argument, while the stored `content` field is `content.strip()`; and
`**base_metadata` is spread LAST in the dict literal, so caller keys
overwrite the reserved keys. -/
def create_chunk (tok : Tokenizer) (document_id : String) (content : Text)
    (chunk_number total_chunks : Nat) (base_metadata : Metadata) : Chunk :=
  let token_count := countTokens tok content
  { id := document_id ++ "#chunk" ++ toString chunk_number
    content := pyStrip content
    metadata :=
      reservedMeta document_id chunk_number total_chunks token_count content.length
        ++ base_metadata }

/-- The backward walk of chunking.py lines 242-247: iterate `reversed
prev_splits`, prepending each piece while the remaining overlap budget
covers it, stopping at the first piece that does not fit
(`overlap_tokens_remaining - prev_tokens < 0` in the source). -/
def overlapSeedGo (tok : Tokenizer) : List Text → Nat → List Text → List Text
  | [], _, acc => acc
  | p :: ps, rem, acc =>
    if rem < countTokens tok p then acc
    else overlapSeedGo tok ps (rem - countTokens tok p) (p :: acc)

/-- Overlap seeding walk (chunking.py lines 239-247) applied to a list of
previous pieces. -/
def overlapSeed (tok : Tokenizer) (overlap : Nat) (prev_splits : List Text) : List Text :=
  overlapSeedGo tok prev_splits.reverse overlap []

/-- State of the packing loop of `_split_with_overlap`
(chunking.py lines 223-225): emitted chunks, current piece list, running
token count. -/
structure PackState where
  chunks : List Text
  cur : List Text
  curTokens : Nat
deriving Repr

/-- One iteration of the packing loop (chunking.py lines 227-252).
When a chunk closes, the source clears `current_chunk` at line 237 and
only THEN copies it into `prev_splits` at line 240, so the overlap walk
always receives the empty list; this is translated faithfully
(`prev_splits := []`). -/
def packStep (tok : Tokenizer) (sep : Text) (target overlap : Nat)
    (st : PackState) (split : Text) : PackState :=
  let split_tokens := countTokens tok split
  if target < st.curTokens + split_tokens ∧ st.cur ≠ [] then
    let chunks := st.chunks ++ [List.intercalate sep st.cur]
    let prev_splits : List Text := []
    let seeded := overlapSeed tok overlap prev_splits
    let current_tokens := countTokens tok (List.intercalate sep seeded)
    { chunks := chunks
      cur := seeded ++ [split]
      curTokens := current_tokens + split_tokens }
  else
    { chunks := st.chunks
      cur := st.cur ++ [split]
      curTokens := st.curTokens + split_tokens }

/-- The whole packing pass over the pieces produced by one separator
(chunking.py lines 222-256), including the final flush at lines 254-256. -/
def packSplits (tok : Tokenizer) (sep : Text) (target overlap : Nat)
    (splits : List Text) : List Text :=
  let st := splits.foldl (packStep tok sep target overlap) ⟨[], [], 0⟩
  if st.cur ≠ [] then st.chunks ++ [List.intercalate sep st.cur] else st.chunks

/-- A Python exception escaping `_split_with_overlap` /
`_split_by_tokens` (e.g. `ValueError` from `"".split` or from a zero
`range` step); `chunk_document` wraps it into a `ChunkingError`. -/
inductive PyError where
  | valueError
deriving DecidableEq, Repr

/-- Window emission loop of `_split_by_tokens` (chunking.py lines
276-279) for stride `s ≥ 1`: starting at offset `i`, emit the decode of
`tokens[i : i + target]` and advance by `s` until the offset reaches or
exceeds the token count.  `fuel = tokens.length` is sufficient since the
stride is at least 1. -/
def sbtGo (tok : Tokenizer) (tokens : List Nat) (target s : Nat) : Nat → Nat → List Text
  | 0, _ => []
  | fuel + 1, i =>
    if i < tokens.length then
      tok.decode ((tokens.drop i).take target) :: sbtGo tok tokens target s fuel (i + s)
    else []

/-- `SmartChunker._split_by_tokens` (chunking.py lines 265-281).
`range(0, len(tokens), target_tokens - overlap_tokens)` raises
`ValueError` when the step is zero and is empty when the step is
negative; both cases are unreachable under a validated config. -/
def splitByTokens (tok : Tokenizer) (text : Text) (target overlap : Nat) :
    Except PyError (List Text) :=
  let tokens := tok.encode text
  if target ≤ overlap then
    if target = overlap then .error .valueError
    else .ok []
  else .ok (sbtGo tok tokens target (target - overlap) tokens.length 0)

/-- The separator cascade of `_split_with_overlap` (chunking.py lines
215-263): try each separator in order; `text.split("")` raises
`ValueError` (Python: empty separator); a separator producing a single
piece is skipped; otherwise the packing pass runs and its (always
non-empty) chunk list is returned; if no separator applies, fall back to
`_split_by_tokens`. -/
def trySeparators (tok : Tokenizer) (text : Text) (target overlap : Nat) :
    List Text → Except PyError (List Text)
  | [] => splitByTokens tok text target overlap
  | sep :: rest =>
    if sep = [] then .error .valueError
    else
      let splits := pySplit sep text
      if splits.length = 1 then trySeparators tok text target overlap rest
      else
        let chunks := packSplits tok sep target overlap splits
        if chunks = [] then trySeparators tok text target overlap rest
        else .ok chunks

/-- `SmartChunker._split_with_overlap` (chunking.py lines 190-263). -/
def splitWithOverlap (tok : Tokenizer) (text : Text) (separators : List Text)
    (target overlap : Nat) : Except PyError (List Text) :=
  if countTokens tok text ≤ target then .ok [text]
  else trySeparators tok text target overlap separators

/-- Chunking failure (`ChunkingError` in the source; the spec's taxonomy
§7 names the first two cases `EmptyContentError` and
`MissingIdentifierError` after their messages "Cannot chunk empty
content" and "Document ID is required"; `wrapped` is the catch-all of
chunking.py lines 187-188). -/
inductive ChunkError where
  | emptyContent
  | missingIdentifier
  | wrapped
deriving DecidableEq, Repr

/-- The `for i, text in enumerate(chunks, 1)` loop of chunking.py lines
166-175: build one `Chunk` per text with 1-based index `i` and the fixed
total. -/
def buildChunks (tok : Tokenizer) (document_id : String) (base_metadata : Metadata)
    (total : Nat) : Nat → List Text → List Chunk
  | _, [] => []
  | i, t :: ts =>
    create_chunk tok document_id t i total base_metadata
      :: buildChunks tok document_id base_metadata total (i + 1) ts

/-- `SmartChunker.chunk_document` (chunking.py lines 144-188): reject
empty/whitespace-only content, then a missing document id; split; wrap
any exception from splitting into a `ChunkingError`; an empty split list
would make the average-tokens statistic at line 179 divide by zero,
which the `except` at lines 187-188 also wraps. -/
def chunk_document (tok : Tokenizer) (config : ChunkingConfig) (document_id : String)
    (content : Text) (metadata : Metadata) : Except ChunkError (List Chunk) :=
  if content = [] ∨ pyStrip content = [] then .error .emptyContent
  else if document_id = "" then .error .missingIdentifier
  else
    match splitWithOverlap tok content config.separators
        config.target_tokens config.overlap_tokens with
    | .error _ => .error .wrapped
    | .ok texts =>
      if texts.length = 0 then .error .wrapped
      else .ok (buildChunks tok document_id metadata texts.length 1 texts)

/-- First-wins combination of two lookups: `dictOr o o'` prefers `o`.
`dictGet (a ++ b) k = dictOr (dictGet b k) (dictGet a k)` (later
bindings win). -/
def dictOr : Option MetaVal → Option MetaVal → Option MetaVal
  | some v, _ => some v
  | none, o => o

/-- Shape of one emitted group of pieces in the packing pass: non-empty,
and either a single piece or with piece token counts summing to at most
`target`. -/
def GroupOk (tok : Tokenizer) (target : Nat) (g : List Text) : Prop :=
  g ≠ [] ∧ (g.length = 1 ∨ (g.map (countTokens tok)).sum ≤ target)

/-- Invariant of the packing loop of `_split_with_overlap` relating the
state to the pieces processed so far: the emitted chunks are the
separator-joins of a partition of the processed pieces (a partition
because the overlap seed is always empty, chunking.py lines 237/240),
each emitted group is `GroupOk`, the running token count dominates the
sum of the current pieces' counts, and the current group is empty, a
singleton, or within `target`. -/
def PackInv (tok : Tokenizer) (sep : Text) (target : Nat)
    (processed : List Text) (st : PackState) : Prop :=
  ∃ gs : List (List Text),
    gs.flatten ++ st.cur = processed ∧
    st.chunks = gs.map (List.intercalate sep) ∧
    (∀ g ∈ gs, GroupOk tok target g) ∧
    (st.cur.map (countTokens tok)).sum ≤ st.curTokens ∧
    (st.cur = [] ∨ st.cur.length = 1 ∨ st.curTokens ≤ target)

/-- The single chunk produced by `chunk_document` on the input `" a"`
(used to exhibit the trimming/token-count mismatch). -/
def c4Chunk : Option Chunk :=
  match chunk_document charTok ⟨512, 1000, 50, defaultSeparators⟩ "d" (" a".data) [] with
  | .ok [c] => some c
  | _ => none

/-- Caller-supplied base metadata binding the reserved key
`total_chunks` (used to exhibit caller-key override of the computed
numbering). -/
def c9CallerMeta : Metadata := [("total_chunks", MetaVal.n 9)]

/-- The chunk list of a successful run of `chunk_document` on
`"ab cd ef"` (target 3, overlap 2) with caller metadata binding
`total_chunks`. -/
def c9Chunks : Option (List Chunk) :=
  match chunk_document charTok ⟨3, 1000, 2, defaultSeparators⟩ "d" ("ab cd ef".data)
      c9CallerMeta with
  | .ok cs => some cs
  | .error _ => none

/-! ## Lemmas about `List.intercalate` -/

theorem intercalate_nil {α : Type} (sep : List α) :
    List.intercalate sep ([] : List (List α)) = [] := rfl

theorem intercalate_single {α : Type} (sep x : List α) :
    List.intercalate sep [x] = x := by
  simp [List.intercalate, List.intersperse]

theorem intercalate_cons_ne {α : Type} (sep a : List α) (l : List (List α)) (h : l ≠ []) :
    List.intercalate sep (a :: l) = a ++ sep ++ List.intercalate sep l := by
  cases l with
  | nil => exact absurd rfl h
  | cons b t => simp [List.intercalate, List.intersperse, List.append_assoc]

theorem intercalate_append_ne {α : Type} (sep : List α) (a b : List (List α))
    (ha : a ≠ []) (hb : b ≠ []) :
    List.intercalate sep (a ++ b) =
      List.intercalate sep a ++ sep ++ List.intercalate sep b := by
  induction a with
  | nil => exact absurd rfl ha
  | cons x a ih =>
    cases a with
    | nil =>
      rw [List.singleton_append, intercalate_cons_ne sep x b hb, intercalate_single]
    | cons y t =>
      rw [List.cons_append, intercalate_cons_ne sep x ((y :: t) ++ b) (by simp),
        ih (by simp), intercalate_cons_ne sep x (y :: t) (by simp)]
      simp [List.append_assoc]

theorem flatten_ne_nil_of_forall_ne {α : Type} (gs : List (List α))
    (hne : ∀ g ∈ gs, g ≠ []) (h : gs ≠ []) : gs.flatten ≠ [] := by
  cases gs with
  | nil => exact absurd rfl h
  | cons g t =>
    have hg := hne g (by simp)
    cases g with
    | nil => exact absurd rfl hg
    | cons c cs => simp

theorem intercalate_map_join {α : Type} (sep : List α) (gs : List (List (List α)))
    (hne : ∀ g ∈ gs, g ≠ []) :
    List.intercalate sep (gs.map (List.intercalate sep)) =
      List.intercalate sep gs.flatten := by
  induction gs with
  | nil => rfl
  | cons g t ih =>
    cases t with
    | nil => simp [intercalate_single]
    | cons g2 t2 =>
      rw [List.map_cons,
        intercalate_cons_ne sep _ ((g2 :: t2).map (List.intercalate sep)) (by simp),
        ih (fun x hx => hne x (by simp [hx]))]
      conv_rhs => rw [List.flatten_cons]
      rw [intercalate_append_ne sep g (g2 :: t2).flatten (hne g (by simp))
          (flatten_ne_nil_of_forall_ne (g2 :: t2) (fun x hx => hne x (by simp [hx])) (by simp))]

/-! ## Lemmas about `pySplit` -/

theorem preMatch_iff (p l : List Char) : preMatch p l = true ↔ ∃ t, l = p ++ t := by
  induction p generalizing l with
  | nil => simp [preMatch]
  | cons a ps ih =>
    cases l with
    | nil => simp [preMatch]
    | cons b ls =>
      simp only [preMatch]
      by_cases hab : a = b
      · subst hab
        simp [ih]
      · rw [if_neg hab]
        constructor
        · intro h; exact absurd h (by simp)
        · rintro ⟨t, ht⟩
          exact absurd (List.head_eq_of_cons_eq ht).symm hab

theorem pySplitGo_ne_nil (s : Char) (ss : List Char) :
    ∀ (fuel : Nat) (text acc : List Char), pySplitGo s ss fuel text acc ≠ [] := by
  intro fuel
  induction fuel with
  | zero => intro text acc; simp [pySplitGo]
  | succ f ih =>
    intro text acc
    simp only [pySplitGo]
    by_cases hp : preMatch (s :: ss) text = true
    · simp [hp]
    · rw [if_neg hp]
      cases text with
      | nil => simp
      | cons c rest => exact ih rest (acc ++ [c])

theorem pySplitGo_intercalate (s : Char) (ss : List Char) :
    ∀ (fuel : Nat) (text acc : List Char),
      List.intercalate (s :: ss) (pySplitGo s ss fuel text acc) = acc ++ text := by
  intro fuel
  induction fuel with
  | zero => intro text acc; simp [pySplitGo, intercalate_single]
  | succ f ih =>
    intro text acc
    simp only [pySplitGo]
    by_cases hp : preMatch (s :: ss) text = true
    · rw [if_pos hp,
        intercalate_cons_ne (s :: ss) acc _ (pySplitGo_ne_nil s ss f _ []), ih]
      obtain ⟨t, ht⟩ := (preMatch_iff (s :: ss) text).mp hp
      subst ht
      have hd : ((s :: ss) ++ t).drop (ss.length + 1) = t := by
        have h := List.drop_left (s :: ss) t
        rwa [List.length_cons] at h
      rw [hd]
      simp [List.append_assoc]
    · rw [if_neg hp]
      cases text with
      | nil => simp [intercalate_single]
      | cons c rest =>
        rw [ih]
        simp

theorem pySplit_intercalate (sep text : Text) :
    List.intercalate sep (pySplit sep text) = text := by
  cases sep with
  | nil => simp [pySplit, intercalate_single]
  | cons s ss =>
    have h := pySplitGo_intercalate s ss text.length text []
    rw [List.nil_append] at h
    exact h

/-! ## Lemmas about `dictGet` -/

theorem dictGet_append (a b : Metadata) (k : String) :
    dictGet (a ++ b) k = dictOr (dictGet b k) (dictGet a k) := by
  induction a with
  | nil => cases h : dictGet b k <;> simp [dictGet, dictOr, h]
  | cons p a ih =>
    obtain ⟨k', v⟩ := p
    rw [List.cons_append]
    simp only [dictGet, ih]
    cases h1 : dictGet b k <;> cases h2 : dictGet a k <;> simp [dictOr, dictGet, h2]

theorem create_chunk_dictGet (tok : Tokenizer) (d : String) (content : Text)
    (i n : Nat) (base : Metadata) (k : String) :
    dictGet (create_chunk tok d content i n base).metadata k =
      dictOr (dictGet base k)
        (dictGet (reservedMeta d i n (countTokens tok content) content.length) k) := by
  simp only [create_chunk]
  exact dictGet_append _ base k

/-! ## The packing-loop invariant -/

theorem overlapSeed_nil (tok : Tokenizer) (overlap : Nat) :
    overlapSeed tok overlap [] = [] := rfl

theorem packStep_inv (tok : Tokenizer) (sep : Text) (target overlap : Nat)
    (processed : List Text) (st : PackState) (split : Text)
    (h : PackInv tok sep target processed st) :
    PackInv tok sep target (processed ++ [split])
      (packStep tok sep target overlap st split) := by
  obtain ⟨gs, hjoin, hchunks, hgs, hsum, hdisj⟩ := h
  unfold packStep
  by_cases hc : target < st.curTokens + countTokens tok split ∧ st.cur ≠ []
  · rw [if_pos hc]
    refine ⟨gs ++ [st.cur], ?_, ?_, ?_, ?_, ?_⟩
    · simp only [overlapSeed_nil, List.nil_append, List.flatten_append,
        List.flatten_cons, List.flatten_nil, List.append_nil, ← hjoin, List.append_assoc]
    · simp [hchunks]
    · intro g hg
      rcases List.mem_append.mp hg with hg | hg
      · exact hgs g hg
      · rw [List.mem_singleton.mp hg]
        refine ⟨hc.2, ?_⟩
        rcases hdisj with hnil | hlen | hle
        · exact absurd hnil hc.2
        · exact Or.inl hlen
        · exact Or.inr (le_trans hsum hle)
    · simp [overlapSeed_nil]
    · simp [overlapSeed_nil]
  · rw [if_neg hc]
    refine ⟨gs, ?_, hchunks, hgs, ?_, ?_⟩
    · rw [← hjoin, List.append_assoc]
    · simp only [List.map_append, List.sum_append, List.map_cons, List.map_nil,
        List.sum_cons, List.sum_nil]
      omega
    · by_cases hnil : st.cur = []
      · rw [hnil]
        exact Or.inr (Or.inl (by simp))
      · have hle : st.curTokens + countTokens tok split ≤ target := by
          rcases not_and_or.mp hc with h' | h'
          · omega
          · exact absurd hnil h'
        exact Or.inr (Or.inr hle)

theorem foldl_packStep_inv (tok : Tokenizer) (sep : Text) (target overlap : Nat) :
    ∀ (splits : List Text) (processed : List Text) (st : PackState),
      PackInv tok sep target processed st →
      PackInv tok sep target (processed ++ splits)
        (splits.foldl (packStep tok sep target overlap) st) := by
  intro splits
  induction splits with
  | nil => intro processed st h; simpa using h
  | cons x t ih =>
    intro processed st h
    rw [List.foldl_cons, show processed ++ x :: t = (processed ++ [x]) ++ t by simp]
    exact ih (processed ++ [x]) _ (packStep_inv tok sep target overlap processed st x h)

theorem packSplits_groups (tok : Tokenizer) (sep : Text) (target overlap : Nat)
    (splits : List Text) :
    ∃ gs : List (List Text),
      gs.flatten = splits ∧
      packSplits tok sep target overlap splits = gs.map (List.intercalate sep) ∧
      ∀ g ∈ gs, GroupOk tok target g := by
  have h0 : PackInv tok sep target [] ⟨[], [], 0⟩ :=
    ⟨[], by simp, by simp, by simp, by simp, by simp⟩
  have h := foldl_packStep_inv tok sep target overlap splits [] _ h0
  rw [List.nil_append] at h
  obtain ⟨gs, hjoin, hchunks, hgs, hsum, hdisj⟩ := h
  unfold packSplits
  by_cases hcur : (splits.foldl (packStep tok sep target overlap) ⟨[], [], 0⟩).cur = []
  · rw [if_neg (by simpa using hcur)]
    refine ⟨gs, ?_, hchunks, hgs⟩
    rw [← hjoin, hcur, List.append_nil]
  · rw [if_pos hcur]
    refine ⟨gs ++ [(splits.foldl (packStep tok sep target overlap) ⟨[], [], 0⟩).cur],
      ?_, ?_, ?_⟩
    · rw [List.flatten_append, List.flatten_cons, List.flatten_nil, List.append_nil]
      exact hjoin
    · simp [hchunks]
    · intro g hg
      rcases List.mem_append.mp hg with hg | hg
      · exact hgs g hg
      · rw [List.mem_singleton.mp hg]
        refine ⟨hcur, ?_⟩
        rcases hdisj with hnil | hlen | hle
        · exact absurd hnil hcur
        · exact Or.inl hlen
        · exact Or.inr (le_trans hsum hle)

/-! ## Lemmas about the token-boundary fallback splitter -/

theorem sbtGo_length (tok : Tokenizer) (tokens : List Nat) (target s : Nat) (hs : 0 < s) :
    ∀ (fuel i : Nat), (tokens.length - i + s - 1) / s ≤ fuel →
      (sbtGo tok tokens target s fuel i).length = (tokens.length - i + s - 1) / s := by
  intro fuel
  induction fuel with
  | zero =>
    intro i h
    have h0 : (tokens.length - i + s - 1) / s = 0 := Nat.le_zero.mp h
    simp [sbtGo, h0]
  | succ f ih =>
    intro i h
    simp only [sbtGo]
    by_cases hi : i < tokens.length
    · rw [if_pos hi]
      have key : (tokens.length - i + s - 1) / s
          = (tokens.length - (i + s) + s - 1) / s + 1 := by
        rcases le_or_lt (tokens.length - i) s with h1 | h1
        · have e1 : tokens.length - i + s - 1 = (tokens.length - i - 1) + s := by omega
          have e2 : tokens.length - (i + s) + s - 1 = s - 1 := by omega
          rw [e1, Nat.add_div_right _ hs, e2,
            Nat.div_eq_of_lt (show tokens.length - i - 1 < s by omega),
            Nat.div_eq_of_lt (show s - 1 < s by omega)]
        · have e1 : tokens.length - i + s - 1
              = (tokens.length - (i + s) + s - 1) + s := by omega
          rw [e1, Nat.add_div_right _ hs]
      have h2 : (tokens.length - (i + s) + s - 1) / s + 1 ≤ f + 1 := by
        rw [← key]; exact h
      rw [List.length_cons, ih (i + s) (Nat.le_of_succ_le_succ h2), key]
    · rw [if_neg hi]
      have h0 : tokens.length - i = 0 := by omega
      rw [h0, List.length_nil, Nat.zero_add,
        Nat.div_eq_of_lt (show s - 1 < s by omega)]

theorem sbtGo_getElem (tok : Tokenizer) (tokens : List Nat) (target s : Nat) :
    ∀ (fuel i k : Nat) (w : Text), (sbtGo tok tokens target s fuel i)[k]? = some w →
      w = tok.decode ((tokens.drop (i + k * s)).take target) := by
  intro fuel
  induction fuel with
  | zero => intro i k w hw; simp [sbtGo] at hw
  | succ f ih =>
    intro i k w hw
    simp only [sbtGo] at hw
    by_cases hi : i < tokens.length
    · rw [if_pos hi] at hw
      cases k with
      | zero =>
        rw [List.getElem?_cons_zero] at hw
        simpa using (Option.some.inj hw).symm
      | succ k =>
        rw [List.getElem?_cons_succ] at hw
        have hk := ih (i + s) k w hw
        rw [hk]
        have e : i + s + k * s = i + (k + 1) * s := by ring
        rw [e]
    · rw [if_neg hi] at hw
      simp at hw

/-! ## Lemmas about chunk assembly -/

theorem buildChunks_length (tok : Tokenizer) (d : String) (meta : Metadata) (total : Nat) :
    ∀ (ts : List Text) (i : Nat), (buildChunks tok d meta total i ts).length = ts.length := by
  intro ts
  induction ts with
  | nil => intro i; rfl
  | cons t ts ih => intro i; simp [buildChunks, ih]

theorem buildChunks_getElem (tok : Tokenizer) (d : String) (meta : Metadata) (total : Nat) :
    ∀ (ts : List Text) (i k : Nat),
      (buildChunks tok d meta total i ts)[k]? =
        (ts[k]?).map (fun t => create_chunk tok d t (i + k) total meta) := by
  intro ts
  induction ts with
  | nil => intro i k; simp [buildChunks]
  | cons t ts ih =>
    intro i k
    cases k with
    | zero => simp [buildChunks]
    | succ k =>
      simp only [buildChunks, List.getElem?_cons_succ, ih (i + 1) k]
      have e : i + 1 + k = i + (k + 1) := by omega
      rw [e]

theorem chunk_document_ok (tok : Tokenizer) (cfg : ChunkingConfig) (d : String)
    (content : Text) (meta : Metadata) (chunks : List Chunk)
    (h : chunk_document tok cfg d content meta = .ok chunks) :
    ∃ texts : List Text,
      splitWithOverlap tok content cfg.separators cfg.target_tokens cfg.overlap_tokens
        = .ok texts ∧
      texts ≠ [] ∧
      chunks = buildChunks tok d meta texts.length 1 texts := by
  unfold chunk_document at h
  by_cases h1 : content = [] ∨ pyStrip content = []
  · rw [if_pos h1] at h; exact Except.noConfusion h
  · rw [if_neg h1] at h
    by_cases h2 : d = ""
    · rw [if_pos h2] at h; exact Except.noConfusion h
    · rw [if_neg h2] at h
      cases hsp : splitWithOverlap tok content cfg.separators
          cfg.target_tokens cfg.overlap_tokens with
      | error e =>
        rw [hsp] at h
        exact Except.noConfusion h
      | ok texts =>
        rw [hsp] at h
        dsimp only at h
        by_cases h3 : texts.length = 0
        · rw [if_pos h3] at h; exact Except.noConfusion h
        · rw [if_neg h3] at h
          refine ⟨texts, rfl, fun hnil => h3 (by rw [hnil]; rfl), ?_⟩
          exact (Except.ok.inj h).symm

/-! ## Reserved-metadata lookups -/

theorem reservedMeta_chunk_number (d : String) (i n tc cc : Nat) :
    dictGet (reservedMeta d i n tc cc) "chunk_number" = some (MetaVal.n i) := rfl

theorem reservedMeta_total_chunks (d : String) (i n tc cc : Nat) :
    dictGet (reservedMeta d i n tc cc) "total_chunks" = some (MetaVal.n n) := rfl

theorem reservedMeta_token_count (d : String) (i n tc cc : Nat) :
    dictGet (reservedMeta d i n tc cc) "token_count" = some (MetaVal.n tc) := rfl

/-! ## Claim theorems -/

/-- C1 (code bug witnessed): on the input `"ab cd ef"` with
`target_tokens = 3`, `overlap_tokens = 2` and a one-token-per-character
tokenizer, the splitter closes the chunk `"ab"` and the next chunk is
exactly `"cd"` — NOT pre-seeded with the trailing overlap `"ab"` the
spec requires — because chunking.py line 240 copies `current_chunk`
after line 237 already cleared it.  The second conjunct shows that the
overlap walk of lines 242-247, had it been given the just-closed
chunk's pieces `["ab"]`, would have produced the non-empty seed
`["ab"]` (its token count 2 ≤ overlap budget 2). -/
theorem c1_overlap_never_seeded :
    splitWithOverlap charTok ("ab cd ef".data) defaultSeparators 3 2 =
      .ok ["ab".data, "cd".data, "ef".data] ∧
    overlapSeed charTok 2 ["ab".data] = ["ab".data] :=
  ⟨rfl, by decide⟩

/-- C2 (counterexample): on `"ab cd ef"` (`target_tokens = 3`,
`overlap_tokens = 2`, one token per character) the produced chunks are
`["ab", "cd", "ef"]`; no chunk carries any overlap region (the seed is
always empty), so the chunks' novel text is the whole chunks, and their
concatenation misses the separator occurrences of the original input
entirely: the character `' '` occurs in the input but in no chunk.
Hence concatenating the chunks' novel text does not cover the entire
original input. -/
theorem c2_concat_misses_separators_cx :
    splitWithOverlap charTok ("ab cd ef".data) defaultSeparators 3 2 =
      .ok ["ab".data, "cd".data, "ef".data] ∧
    ["ab".data, "cd".data, "ef".data].flatten ≠ "ab cd ef".data ∧
    ' ' ∈ "ab cd ef".data ∧
    ' ' ∉ ["ab".data, "cd".data, "ef".data].flatten :=
  ⟨rfl, by decide⟩

/-- C2 (amended): for every tokenizer, separator, target and overlap,
the chunks produced by the packing pass of `_split_with_overlap` from
the separator-split pieces of the input reconstruct the ENTIRE input
exactly once the separator is re-inserted between consecutive chunks
(equivalently: the chunks are the separator-joins of a partition of the
input's pieces — there are no gaps apart from one separator occurrence
at each chunk boundary, and, since overlap is never seeded, no
duplicated overlap regions to ignore). -/
theorem c2_sep_reinserted_reconstructs (tok : Tokenizer) (sep : Text)
    (target overlap : Nat) (text : Text) :
    List.intercalate sep (packSplits tok sep target overlap (pySplit sep text)) = text := by
  obtain ⟨gs, hjoin, heq, hgs⟩ := packSplits_groups tok sep target overlap (pySplit sep text)
  rw [heq, intercalate_map_join sep gs (fun g hg => (hgs g hg).1), hjoin,
    pySplit_intercalate]

/-- C3 (counterexample): a caller-supplied base metadata entry for the
reserved key `token_count` survives into the chunk's metadata, displacing
the computed value (`countTokens "x" = 1`): caller keys win, not
reserved keys, because `**base_metadata` is spread last in the dict
literal of chunking.py lines 128-136. -/
theorem c3_reserved_key_overwritten_cx :
    dictGet (create_chunk charTok "d" ("x".data) 1 1
        [("token_count", MetaVal.n 999)]).metadata "token_count"
      = some (MetaVal.n 999) ∧
    countTokens charTok ("x".data) = 1 := by decide

/-- C3 (amended): for every chunk built by `create_chunk` and every key,
the metadata lookup prefers the CALLER-supplied base metadata binding
(last wins, Python dict semantics) and falls back to the computed
reserved binding only when the caller did not bind the key. -/
theorem c3_caller_keys_override (tok : Tokenizer) (d : String) (content : Text)
    (i n : Nat) (base : Metadata) (k : String) :
    dictGet (create_chunk tok d content i n base).metadata k =
      dictOr (dictGet base k)
        (dictGet (reservedMeta d i n (countTokens tok content) content.length) k) :=
  create_chunk_dictGet tok d content i n base k

/-- C4 (counterexample): chunking the document `" a"` under the default
config with the one-token-per-character tokenizer yields a single chunk
whose stored `token_count` is 2 (the count of the untrimmed span
`" a"`), while the Token Counter applied to the chunk's `content` field
(the trimmed `"a"`) gives 1. -/
theorem c4_token_count_differs_from_content_cx :
    (c4Chunk.map fun c => dictGet c.metadata "token_count")
      = some (some (MetaVal.n 2)) ∧
    (c4Chunk.map fun c => countTokens charTok c.content) = some 1 := by decide

/-- C4 (amended): provided the caller's base metadata does not itself
bind `token_count`, the stored `token_count` equals the Token Counter's
count of the UNTRIMMED span the chunk was built from (chunking.py line
126 counts `content` before line 140 strips it), while the stored
`content` field is the trimmed span — so the two counts differ whenever
trimming removes tokens. -/
theorem c4_token_count_of_untrimmed_span (tok : Tokenizer) (d : String)
    (content : Text) (i n : Nat) (base : Metadata)
    (h : dictGet base "token_count" = none) :
    dictGet (create_chunk tok d content i n base).metadata "token_count"
      = some (MetaVal.n (countTokens tok content)) ∧
    (create_chunk tok d content i n base).content = pyStrip content := by
  refine ⟨?_, rfl⟩
  rw [create_chunk_dictGet, h]
  exact reservedMeta_token_count d i n (countTokens tok content) content.length

theorem c4_token_count_of_untrimmed_span_witness :
    dictGet (create_chunk charTok "d" (" a".data) 1 1 []).metadata "token_count"
      = some (MetaVal.n (countTokens charTok (" a".data))) :=
  (c4_token_count_of_untrimmed_span charTok "d" (" a".data) 1 1 [] rfl).1

/-- C5 (counterexample): on `"abc de fg"` with `target_tokens = 5`,
`overlap_tokens = 0` and one token per character, every atomic piece
produced by the chosen separator `" "` has token count at most 5, yet
the splitter emits the chunk `"abc de"` — a join of TWO pieces — whose
token count is 6 > 5: the separators re-inserted by `join` are not
charged against the running total (chunking.py lines 231, 252), so a
multi-piece chunk can exceed `target_tokens`. -/
theorem c5_multi_piece_chunk_exceeds_target_cx :
    splitWithOverlap charTok ("abc de fg".data) defaultSeparators 5 0 =
      .ok ["abc de".data, "fg".data] ∧
    countTokens charTok ("abc de".data) = 6 ∧
    (∀ p ∈ pySplit (" ".data) ("abc de fg".data), countTokens charTok p ≤ 5) :=
  ⟨rfl, by decide⟩

/-- C5 (amended): every chunk emitted by the packing pass is the
separator-join of a non-empty run of consecutive pieces, and every
chunk made of two or more pieces has the SUM of its pieces' token
counts at most `target_tokens` (single-piece chunks may exceed the
target and are passed through verbatim); the joined chunk's own token
count may still exceed `target_tokens` because the joining separators'
tokens are not counted. -/
theorem c5_piece_sum_bounded (tok : Tokenizer) (sep : Text) (target overlap : Nat)
    (text : Text) :
    ∃ gs : List (List Text),
      gs.flatten = pySplit sep text ∧
      packSplits tok sep target overlap (pySplit sep text)
        = gs.map (List.intercalate sep) ∧
      ∀ g ∈ gs, g ≠ [] ∧
        (g.length = 1 ∨ (g.map (countTokens tok)).sum ≤ target) := by
  obtain ⟨gs, h1, h2, h3⟩ := packSplits_groups tok sep target overlap (pySplit sep text)
  exact ⟨gs, h1, h2, fun g hg => h3 g hg⟩

/-- C6: constructing a `ChunkingConfig` succeeds exactly when all field
ranges hold (`target_tokens > 0`, `max_tokens > 0`, `overlap_tokens ≥ 0`)
and the two `validate_tokens` invariants hold
(`overlap_tokens < target_tokens` and `target_tokens ≤ max_tokens`);
every successfully constructed config satisfies both invariants. -/
theorem c6_config_validation (target maxT overlap : Int) (seps : List Text) :
    ((∃ cfg, mkChunkingConfig target maxT overlap seps = .ok cfg) ↔
      (0 < target ∧ 0 < maxT ∧ 0 ≤ overlap ∧ overlap < target ∧ target ≤ maxT)) ∧
    (∀ cfg, mkChunkingConfig target maxT overlap seps = .ok cfg →
      cfg.overlap_tokens < cfg.target_tokens ∧ cfg.target_tokens ≤ cfg.max_tokens) := by
  unfold mkChunkingConfig
  constructor
  · constructor
    · rintro ⟨cfg, h⟩
      split_ifs at h
      all_goals first | exact Except.noConfusion h | omega
    · intro hc
      split_ifs
      all_goals first | omega | exact ⟨_, rfl⟩
  · intro cfg h
    split_ifs at h
    all_goals
      first
      | exact Except.noConfusion h
      | (have hc := Except.ok.inj h
         subst hc
         dsimp
         omega)

theorem c6_config_validation_witness :
    ∃ cfg, mkChunkingConfig 512 1000 50 [] = .ok cfg ∧
      cfg.overlap_tokens < cfg.target_tokens ∧ cfg.target_tokens ≤ cfg.max_tokens := by
  obtain ⟨cfg, h⟩ := (c6_config_validation 512 1000 50 []).1.mpr (by norm_num)
  exact ⟨cfg, h, (c6_config_validation 512 1000 50 []).2 cfg h⟩

/-- C7: empty or whitespace-only content is rejected with the
empty-content error (`ChunkingError("Cannot chunk empty content")`,
the spec's `EmptyContentError`) and, for non-empty content, a missing
document identifier is rejected with the missing-identifier error
(`ChunkingError("Document ID is required")`, the spec's
`MissingIdentifierError`) — both before any splitting work (the result
does not depend on the tokenizer or the config), and in both cases no
chunks are returned. -/
theorem c7_input_validation (tok : Tokenizer) (cfg : ChunkingConfig) (d : String)
    (content : Text) (meta : Metadata) :
    (pyStrip content = [] →
      chunk_document tok cfg d content meta = .error .emptyContent) ∧
    (pyStrip content ≠ [] → d = "" →
      chunk_document tok cfg d content meta = .error .missingIdentifier) := by
  constructor
  · intro h
    unfold chunk_document
    rw [if_pos (Or.inr h)]
  · intro h hd
    unfold chunk_document
    rw [if_neg ?_, if_pos hd]
    rintro (rfl | hh)
    · exact h rfl
    · exact h hh

theorem c7_input_validation_witness :
    chunk_document charTok ⟨512, 1000, 50, defaultSeparators⟩ "d" ("  ".data) []
      = .error .emptyContent ∧
    chunk_document charTok ⟨512, 1000, 50, defaultSeparators⟩ "" ("x".data) []
      = .error .missingIdentifier :=
  ⟨(c7_input_validation charTok ⟨512, 1000, 50, defaultSeparators⟩ "d" ("  ".data) []).1
      (by decide),
    (c7_input_validation charTok ⟨512, 1000, 50, defaultSeparators⟩ "" ("x".data) []).2
      (by decide) rfl⟩

/-- C8 (counterexample): a successful single-chunk run whose caller
metadata binds the reserved key `chunk_number` produces a chunk whose
`chunk_number` metadata value is the caller's 7, not the computed 1:
the frozen claim's `chunk_number = 1` fails for this input because
`**base_metadata` is spread last (chunking.py lines 128-136). -/
theorem c8_caller_override_cx :
    chunk_document charTok ⟨512, 1000, 50, defaultSeparators⟩ "d" ("hi".data)
        [("chunk_number", MetaVal.n 7)]
      = .ok [create_chunk charTok "d" ("hi".data) 1 1
          [("chunk_number", MetaVal.n 7)]] ∧
    dictGet (create_chunk charTok "d" ("hi".data) 1 1
        [("chunk_number", MetaVal.n 7)]).metadata "chunk_number"
      = some (MetaVal.n 7) ∧
    MetaVal.n 7 ≠ MetaVal.n 1 :=
  ⟨rfl, by decide⟩

/-- C8 (amended): for non-empty (after trimming) content whose token
count is at most `target_tokens`, with a non-empty document id and
caller metadata that does not bind the reserved numbering keys (caller
keys overwrite them on collision, see C3), chunking returns exactly one
chunk: the trimmed original text, with `chunk_number = 1` and
`total_chunks = 1` in its metadata. -/
theorem c8_small_input_single_chunk (tok : Tokenizer) (cfg : ChunkingConfig)
    (d : String) (content : Text) (meta : Metadata)
    (hd : d ≠ "") (hc : pyStrip content ≠ [])
    (ht : countTokens tok content ≤ cfg.target_tokens)
    (h1 : dictGet meta "chunk_number" = none)
    (h2 : dictGet meta "total_chunks" = none) :
    chunk_document tok cfg d content meta
      = .ok [create_chunk tok d content 1 1 meta] ∧
    (create_chunk tok d content 1 1 meta).content = pyStrip content ∧
    dictGet (create_chunk tok d content 1 1 meta).metadata "chunk_number"
      = some (MetaVal.n 1) ∧
    dictGet (create_chunk tok d content 1 1 meta).metadata "total_chunks"
      = some (MetaVal.n 1) := by
  refine ⟨?_, rfl, ?_, ?_⟩
  · unfold chunk_document
    rw [if_neg ?empty, if_neg hd]
    case empty =>
      rintro (rfl | hh)
      · exact hc rfl
      · exact hc hh
    rw [show splitWithOverlap tok content cfg.separators cfg.target_tokens
          cfg.overlap_tokens = .ok [content] by
        unfold splitWithOverlap; rw [if_pos ht]]
    rfl
  · rw [create_chunk_dictGet, h1]
    exact reservedMeta_chunk_number d 1 1 (countTokens tok content) content.length
  · rw [create_chunk_dictGet, h2]
    exact reservedMeta_total_chunks d 1 1 (countTokens tok content) content.length

theorem c8_small_input_single_chunk_witness :
    chunk_document charTok ⟨512, 1000, 50, defaultSeparators⟩ "d" ("hi".data) []
      = .ok [create_chunk charTok "d" ("hi".data) 1 1 []] :=
  (c8_small_input_single_chunk charTok ⟨512, 1000, 50, defaultSeparators⟩ "d"
    ("hi".data) [] (by decide) (by decide) (by decide) rfl rfl).1

/-- C9 (counterexample): a successful run returning 3 chunks, in which
every chunk's `total_chunks` metadata value is the caller's 9 rather
than the sequence length 3, because the caller's base metadata binds
the reserved key `total_chunks` and caller keys are merged last: the
frozen claim's `total_chunks = n` fails for this input. -/
theorem c9_caller_override_cx :
    (c9Chunks.map List.length) = some 3 ∧
    (c9Chunks.map fun cs => cs.map fun c => dictGet c.metadata "total_chunks")
      = some [some (MetaVal.n 9), some (MetaVal.n 9), some (MetaVal.n 9)] ∧
    MetaVal.n 9 ≠ MetaVal.n 3 := by decide

/-- C9 (amended): for every successful chunking run whose caller
metadata does not bind the reserved numbering keys (caller keys
overwrite them on collision, see C3), the chunk at 0-based position `i`
has id `{document_id}#chunk{i+1}`, `chunk_number = i + 1` in its
metadata (so the numbers form the contiguous 1-based sequence `1..n` in
output order), and `total_chunks` equal to the length `n` of the
returned sequence. -/
theorem c9_numbering_and_ids (tok : Tokenizer) (cfg : ChunkingConfig) (d : String)
    (content : Text) (meta : Metadata) (chunks : List Chunk)
    (hok : chunk_document tok cfg d content meta = .ok chunks)
    (h1 : dictGet meta "chunk_number" = none)
    (h2 : dictGet meta "total_chunks" = none) :
    ∀ (i : Nat) (c : Chunk), chunks[i]? = some c →
      c.id = d ++ "#chunk" ++ toString (i + 1) ∧
      dictGet c.metadata "chunk_number" = some (MetaVal.n (i + 1)) ∧
      dictGet c.metadata "total_chunks" = some (MetaVal.n chunks.length) := by
  obtain ⟨texts, hsp, hne, hchunks⟩ := chunk_document_ok tok cfg d content meta chunks hok
  intro i c hc
  rw [hchunks, buildChunks_getElem] at hc
  cases htex : texts[i]? with
  | none => rw [htex] at hc; exact Option.noConfusion hc
  | some t =>
    rw [htex] at hc
    have hct : c = create_chunk tok d t (1 + i) texts.length meta :=
      (Option.some.inj hc).symm
    have hlen : chunks.length = texts.length := by
      rw [hchunks, buildChunks_length]
    have hadd : 1 + i = i + 1 := by omega
    refine ⟨?_, ?_, ?_⟩
    · rw [hct, hadd]; rfl
    · rw [hct, create_chunk_dictGet, h1, hadd]
      exact reservedMeta_chunk_number d (i + 1) texts.length (countTokens tok t) t.length
    · rw [hct, create_chunk_dictGet, h2, hlen]
      exact reservedMeta_total_chunks d (1 + i) texts.length (countTokens tok t) t.length

theorem c9_numbering_and_ids_witness :
    (chunk_document charTok ⟨3, 1000, 2, defaultSeparators⟩ "d" ("ab cd ef".data) []
        = .ok [create_chunk charTok "d" ("ab".data) 1 3 [],
               create_chunk charTok "d" ("cd".data) 2 3 [],
               create_chunk charTok "d" ("ef".data) 3 3 []]) ∧
    (create_chunk charTok "d" ("cd".data) 2 3 []).id = "d" ++ "#chunk" ++ toString (1 + 1) ∧
    dictGet (create_chunk charTok "d" ("cd".data) 2 3 []).metadata "chunk_number"
      = some (MetaVal.n 2) := by
  have hok : chunk_document charTok ⟨3, 1000, 2, defaultSeparators⟩ "d" ("ab cd ef".data) []
      = .ok [create_chunk charTok "d" ("ab".data) 1 3 [],
             create_chunk charTok "d" ("cd".data) 2 3 [],
             create_chunk charTok "d" ("ef".data) 3 3 []] := rfl
  have h := c9_numbering_and_ids charTok ⟨3, 1000, 2, defaultSeparators⟩ "d"
    ("ab cd ef".data) [] _ hok rfl rfl 1 (create_chunk charTok "d" ("cd".data) 2 3 [])
    (by rfl)
  exact ⟨hok, h.1, h.2.1⟩

/-- C10: for every tokenizer, text and overlap < target, the
token-boundary fallback splitter succeeds and emits exactly
`⌈tokenCount / stride⌉` windows (stride `s = target − overlap ≥ 1`),
where the window at 0-based position `k` is the decode of the
`target`-token slice of the encoded text starting at offset `k·s` (the
final window shorter when fewer tokens remain; no window starts at or
beyond the total token count). -/
theorem c10_fallback_windows (tok : Tokenizer) (text : Text) (target overlap : Nat)
    (h : overlap < target) :
    ∃ ws : List Text,
      splitByTokens tok text target overlap = .ok ws ∧
      ws.length = ((tok.encode text).length + (target - overlap) - 1)
        / (target - overlap) ∧
      ∀ (k : Nat) (w : Text), ws[k]? = some w →
        w = tok.decode (((tok.encode text).drop (k * (target - overlap))).take target) := by
  unfold splitByTokens
  rw [if_neg (by omega : ¬ target ≤ overlap)]
  refine ⟨_, rfl, ?_, ?_⟩
  · apply sbtGo_length tok (tok.encode text) target (target - overlap) (by omega)
    rw [Nat.sub_zero]
    rcases Nat.eq_zero_or_pos (tok.encode text).length with h0 | h0
    · rw [h0, Nat.zero_add, Nat.div_eq_of_lt (by omega)]
    · rw [Nat.div_le_iff_le_mul_add_pred (by omega : 0 < target - overlap)]
      have hmul : 1 * (tok.encode text).length
          ≤ (target - overlap) * (tok.encode text).length :=
        Nat.mul_le_mul_right (tok.encode text).length (by omega)
      omega
  · intro k w hw
    have := sbtGo_getElem tok (tok.encode text) target (target - overlap)
      (tok.encode text).length 0 k w hw
    rwa [Nat.zero_add] at this

theorem c10_fallback_windows_witness :
    (1 : Nat) < 3 ∧
    ∃ ws : List Text, splitByTokens charTok ("abcdefgh".data) 3 1 = .ok ws ∧
      ws.length = 4 := by
  obtain ⟨ws, hok, hlen, -⟩ := c10_fallback_windows charTok ("abcdefgh".data) 3 1
    (by norm_num)
  refine ⟨by norm_num, ws, hok, ?_⟩
  rw [hlen]
  decide

end McpPinecone
